import Mathlib

/-!
Verification of the static-file request resolver of `serve_modal.py`.

The resolver (`serve`) receives the URL path of an HTTP request and decides,
against the current filesystem state, whether to serve a concrete file, to
serve the SPA entry document `index.html` as a fallback, or to answer 404.

Embedding choices:
* Python strings are embedded as `List Char`.
* Filesystem paths are lists of segments rooted at `/`; `Path` joining and the
  `PurePath` normalization (collapsing empty and `.` segments) are embedded by
  `splitSegs` / `pathSegs`; the operating system resolution of `..` segments
  performed by `stat`-like calls (`exists`, `is_file`) is embedded by
  `resolveSegs`.
* The filesystem state is a function from resolved paths to the kind of entry
  found there (regular file, directory, or nothing).
-/

namespace ServeModal

/-- Python strings are embedded as lists of characters. -/
abbrev Str := List Char

/-- The literal name `index.html` used by the resolver. -/
def indexHtml : Str := ['i', 'n', 'd', 'e', 'x', '.', 'h', 't', 'm', 'l']

/-- The single segment `assets` of the assets root `/assets`. -/
def assetsS : Str := ['a', 's', 's', 'e', 't', 's']

/-- The assets root `/assets` as a segment list from `/`. -/
def assetsRoot : List Str := [assetsS]

/-- The `..` segment. -/
def dotdot : Str := ['.', '.']

/-- `s.lstrip("/")`: drop every leading `/` character. -/
def lstripSlash (s : Str) : Str := s.dropWhile (fun c => c == '/')

/-- Lines 19-21 of `serve_modal.py`: strip the leading slashes from the URL
path; an empty result is replaced by the literal `index.html`. -/
def normalize (requestPath : Str) : Str :=
  let p := lstripSlash requestPath
  if p = [] then indexHtml else p

/-- Split a name on `/`, keeping empty segments (like `str.split("/")`). -/
def splitSegs : Str → List Str
  | [] => [[]]
  | c :: cs =>
    let rest := splitSegs cs
    if c = '/' then [] :: rest
    else (c :: rest.headD []) :: rest.tail

/-- The segments of a name as `PurePath` keeps them: empty segments and `.`
segments are collapsed (`..` segments are kept). -/
def pathSegs (name : Str) : List Str :=
  (splitSegs name).filter (fun seg => seg != [] && seg != ['.'])

/-- Line 23 of `serve_modal.py`: `Path("/assets") / path`, as a segment list
from the filesystem root. -/
def candidate (name : Str) : List Str := assetsRoot ++ pathSegs name

/-- The operating-system resolution of `..` segments applied when a path is
passed to a `stat`-like call: `..` drops the previous segment (`/..` stays at
the root). -/
def resolveSegs (l : List Str) : List Str :=
  l.foldl (fun acc seg => if seg = dotdot then acc.dropLast else acc ++ [seg]) []

/-- What the filesystem holds at a resolved path: a regular file, a directory,
or nothing. -/
inductive FKind
  | file
  | dir
  | absent
deriving DecidableEq

/-- A filesystem state: the kind of entry at every resolved path. -/
structure FS where
  stat : List Str → FKind

/-- `Path.exists()`: the path, with `..` segments resolved, names some entry. -/
def FS.exists (fs : FS) (p : List Str) : Bool :=
  decide (fs.stat (resolveSegs p) ≠ FKind.absent)

/-- `Path.is_file()`: the path, with `..` segments resolved, names a regular
file. -/
def FS.is_file (fs : FS) (p : List Str) : Bool :=
  decide (fs.stat (resolveSegs p) = FKind.file)

/-- The three resolution outcomes: serve the file at a path, serve the SPA
fallback document at a path, or answer 404 with no body. -/
inductive Outcome
  | ServeFile : List Str → Outcome
  | ServeFallback : List Str → Outcome
  | NotFound : Outcome
deriving DecidableEq

/-- Lines 15-33 of `serve_modal.py`: the request-to-file resolution policy.
`path = request.url.path.lstrip("/")`; empty becomes `index.html`;
`file_path = Path("/assets") / path`; if `file_path.exists() and
file_path.is_file()` serve it; else if `"." not in path` serve
`/assets/index.html` as SPA fallback; else 404. -/
def serve (fs : FS) (requestPath : Str) : Outcome :=
  if fs.exists (candidate (normalize requestPath)) &&
      fs.is_file (candidate (normalize requestPath)) then
    Outcome.ServeFile (candidate (normalize requestPath))
  else if '.' ∉ normalize requestPath then
    Outcome.ServeFallback (candidate indexHtml)
  else
    Outcome.NotFound

/-- A concrete filesystem state used for witnesses: `/assets` holds
`index.html`, `app.js` and a subdirectory `img`; outside the assets root,
`/etc/passwd` exists as a regular file. -/
def fsEx : FS :=
  ⟨fun p =>
    if p = [] then FKind.dir
    else if p = [assetsS] then FKind.dir
    else if p = [assetsS, indexHtml] then FKind.file
    else if p = [assetsS, ['a', 'p', 'p', '.', 'j', 's']] then FKind.file
    else if p = [assetsS, ['i', 'm', 'g']] then FKind.dir
    else if p = [['e', 't', 'c']] then FKind.dir
    else if p = [['e', 't', 'c'], ['p', 'a', 's', 's', 'w', 'd']] then FKind.file
    else FKind.absent⟩

/-- The request path `/app.js`. -/
def appJsReq : Str := ['/', 'a', 'p', 'p', '.', 'j', 's']

/-- The request path `/about`. -/
def aboutReq : Str := ['/', 'a', 'b', 'o', 'u', 't']

/-- The request path `/missing.png`. -/
def missingPngReq : Str :=
  ['/', 'm', 'i', 's', 's', 'i', 'n', 'g', '.', 'p', 'n', 'g']

/-- The request path `/img`. -/
def imgReq : Str := ['/', 'i', 'm', 'g']

/-- The traversal request path `/../../etc/passwd`. -/
def travReq : Str :=
  ['/', '.', '.', '/', '.', '.', '/', 'e', 't', 'c', '/', 'p', 'a', 's', 's',
   'w', 'd']

/-- The candidate `Path("/assets") / "../../etc/passwd"` as segments. -/
def travCand : List Str :=
  [assetsS, dotdot, dotdot, ['e', 't', 'c'], ['p', 'a', 's', 's', 'w', 'd']]

/-- C1: if the candidate obtained by joining the assets root with the
normalized name exists and is a regular file, `serve` returns `ServeFile` of
that exact candidate, for every request path (hence regardless of whether the
name contains an extension marker). -/
theorem c1 (fs : FS) (rp : Str)
    (h1 : fs.exists (candidate (normalize rp)) = true)
    (h2 : FS.is_file fs (candidate (normalize rp)) = true) :
    serve fs rp = Outcome.ServeFile (candidate (normalize rp)) := by
  unfold serve
  rw [h1, h2]
  rfl

/-- Witness for C1: on the concrete filesystem `fsEx`, the request `/app.js`
names an existing regular file and is served as that exact file. -/
theorem c1_witness :
    serve fsEx appJsReq = Outcome.ServeFile (candidate (normalize appJsReq)) :=
  c1 fsEx appJsReq (by decide) (by decide)

/-- C2: when the candidate is not an existing regular file and the normalized
name contains no `.` character, `serve` returns the SPA fallback, whose
location is `assetsRoot/index.html`. -/
theorem c2 (fs : FS) (rp : Str)
    (h : FS.is_file fs (candidate (normalize rp)) = false)
    (hnd : '.' ∉ normalize rp) :
    serve fs rp = Outcome.ServeFallback [assetsS, indexHtml] := by
  unfold serve
  rw [h]
  simp only [Bool.and_false, Bool.false_eq_true, if_false]
  rw [if_pos hnd]
  rfl

/-- Witness for C2: on `fsEx`, the request `/about` matches no file and has no
dot, so it resolves to the fallback `/assets/index.html`. -/
theorem c2_witness :
    serve fsEx aboutReq = Outcome.ServeFallback [assetsS, indexHtml] :=
  c2 fsEx aboutReq (by decide) (by decide)

/-- C3: when the candidate is not an existing regular file and the normalized
name contains a `.` character, `serve` returns `NotFound`. -/
theorem c3 (fs : FS) (rp : Str)
    (h : FS.is_file fs (candidate (normalize rp)) = false)
    (hd : '.' ∈ normalize rp) :
    serve fs rp = Outcome.NotFound := by
  unfold serve
  rw [h]
  simp only [Bool.and_false, Bool.false_eq_true, if_false]
  rw [if_neg (not_not_intro hd)]

/-- Witness for C3: on `fsEx`, the request `/missing.png` matches no file and
contains a dot, so it resolves to `NotFound`. -/
theorem c3_witness : serve fsEx missingPngReq = Outcome.NotFound :=
  c3 fsEx missingPngReq (by decide) (by decide)

/-- C7: for every request path and filesystem state, `serve` is total and its
result is exactly one of the three outcomes `ServeFile`, `ServeFallback`,
`NotFound` (the three constructors of the `Outcome` sum type). -/
theorem c7 (fs : FS) (rp : Str) :
    (∃ p, serve fs rp = Outcome.ServeFile p) ∨
      (∃ p, serve fs rp = Outcome.ServeFallback p) ∨
      serve fs rp = Outcome.NotFound := by
  unfold serve
  split
  · exact Or.inl ⟨_, rfl⟩
  · split
    · exact Or.inr (Or.inl ⟨_, rfl⟩)
    · exact Or.inr (Or.inr rfl)

/-- C6: on a filesystem where `/assets/index.html` is a regular file, the
request paths `""` and `"/"` both resolve to
`ServeFile(assetsRoot/index.html)`. -/
theorem c6 (fs : FS) (h : fs.stat [assetsS, indexHtml] = FKind.file) :
    serve fs [] = Outcome.ServeFile [assetsS, indexHtml] ∧
      serve fs ['/'] = Outcome.ServeFile [assetsS, indexHtml] := by
  have hcand : candidate (normalize ([] : Str)) = [assetsS, indexHtml] := by
    decide
  have hcand2 : candidate (normalize ['/']) = [assetsS, indexHtml] := by decide
  have hres : resolveSegs [assetsS, indexHtml] = [assetsS, indexHtml] := by
    decide
  constructor
  · unfold serve
    rw [hcand]
    unfold FS.exists FS.is_file
    rw [hres, h]
    rfl
  · unfold serve
    rw [hcand2]
    unfold FS.exists FS.is_file
    rw [hres, h]
    rfl

/-- Witness for C6: on the concrete filesystem `fsEx` (where
`/assets/index.html` is a regular file), the empty request path is served
`index.html`. -/
theorem c6_witness : serve fsEx [] = Outcome.ServeFile [assetsS, indexHtml] :=
  (c6 fsEx (by decide)).1

/-- C8: `serve` is a pure function of the request path and the filesystem
state: resolving the same path twice against the same state yields the same
outcome twice, and in any sequence of requests the outcome of the last request
is `serve` of it alone, independent of the prior requests. -/
theorem c8 (fs : FS) (pre : List Str) (rp : Str) :
    List.map (serve fs) [rp, rp] = [serve fs rp, serve fs rp] ∧
      (List.map (serve fs) (pre ++ [rp])).getLast? = some (serve fs rp) := by
  refine ⟨rfl, ?_⟩
  rw [List.map_append]
  simp

/-- Dropping leading slashes ignores any block of leading `/` characters. -/
theorem lstripSlash_replicate (n : Nat) (rp : Str) :
    lstripSlash (List.replicate n '/' ++ rp) = lstripSlash rp := by
  induction n with
  | zero => rfl
  | succ n ih =>
    rw [List.replicate_succ, List.cons_append]
    unfold lstripSlash at ih ⊢
    rw [List.dropWhile_cons_of_pos (by decide)]
    exact ih

/-- The resolution outcome is determined by the normalized name. -/
theorem serve_eq_of_normalize_eq (fs : FS) (rp1 rp2 : Str)
    (h : normalize rp1 = normalize rp2) : serve fs rp1 = serve fs rp2 := by
  unfold serve
  rw [h]

/-- C9: request paths that differ only in the number of leading `/` characters
normalize alike and get identical outcomes on every filesystem state. -/
theorem c9 (fs : FS) (rp : Str) (n m : Nat) :
    serve fs (List.replicate n '/' ++ rp) =
      serve fs (List.replicate m '/' ++ rp) := by
  apply serve_eq_of_normalize_eq
  unfold normalize
  rw [lstripSlash_replicate, lstripSlash_replicate]

/-- C10: a `ServeFile` outcome is only produced for a path that the filesystem
holds as a regular file; when the candidate is a directory, `serve` falls
through to the fallback (no `.` in the name) or `NotFound` (a `.` in the
name). -/
theorem c10 (fs : FS) (rp : Str) :
    (∀ p, serve fs rp = Outcome.ServeFile p → FS.is_file fs p = true) ∧
      (fs.stat (resolveSegs (candidate (normalize rp))) = FKind.dir →
        serve fs rp =
          if '.' ∈ normalize rp then Outcome.NotFound
          else Outcome.ServeFallback [assetsS, indexHtml]) := by
  constructor
  · intro p hp
    unfold serve at hp
    by_cases hc : (fs.exists (candidate (normalize rp)) &&
        FS.is_file fs (candidate (normalize rp))) = true
    · rw [if_pos hc] at hp
      cases hp
      exact (Bool.and_eq_true _ _ |>.mp hc).2
    · rw [if_neg hc] at hp
      split at hp <;> cases hp
  · intro hdir
    have hnf : FS.is_file fs (candidate (normalize rp)) = false := by
      unfold FS.is_file
      rw [hdir]
      decide
    unfold serve
    rw [hnf]
    simp only [Bool.and_false, Bool.false_eq_true, if_false]
    by_cases hm : '.' ∈ normalize rp
    · rw [if_neg (not_not_intro hm), if_pos hm]
    · rw [if_pos hm, if_neg hm]
      rfl

/-- Witness for C10: on `fsEx`, `/app.js` is served as a regular file, and the
directory request `/img` (candidate `/assets/img`, a directory) falls through
to the SPA fallback. -/
theorem c10_witness :
    FS.is_file fsEx (candidate (normalize appJsReq)) = true ∧
      serve fsEx imgReq = Outcome.ServeFallback [assetsS, indexHtml] := by
  constructor
  · exact (c10 fsEx appJsReq).1 (candidate (normalize appJsReq)) (by decide)
  · rw [(c10 fsEx imgReq).2 (by decide)]
    decide

/-- `splitSegs` never returns the empty list of segments. -/
theorem splitSegs_ne_nil (s : Str) : splitSegs s ≠ [] := by
  induction s with
  | nil => simp [splitSegs]
  | cons c cs ih =>
    unfold splitSegs
    by_cases h : c = '/'
    · simp [h]
    · simp [h]

/-- Every character of a segment of `s` is a character of `s`. -/
theorem mem_of_mem_splitSegs :
    ∀ (s : Str) (seg : Str), seg ∈ splitSegs s → ∀ c, c ∈ seg → c ∈ s := by
  intro s
  induction s with
  | nil =>
    intro seg hs c hc
    simp [splitSegs] at hs
    subst hs
    simp at hc
  | cons a as ih =>
    intro seg hs c hc
    unfold splitSegs at hs
    by_cases ha : a = '/'
    · rw [if_pos ha] at hs
      rcases List.mem_cons.mp hs with h | h
      · subst h
        simp at hc
      · exact List.mem_cons_of_mem _ (ih seg h c hc)
    · rw [if_neg ha] at hs
      rcases List.mem_cons.mp hs with h | h
      · subst h
        rcases List.mem_cons.mp hc with h2 | h2
        · subst h2
          exact List.mem_cons_self _ _
        · have hh : (splitSegs as).headD [] ∈ splitSegs as := by
            cases hsp : splitSegs as with
            | nil => exact absurd hsp (splitSegs_ne_nil as)
            | cons x xs => simp
          exact List.mem_cons_of_mem _ (ih _ hh c h2)
      · have hseg : seg ∈ splitSegs as := List.mem_of_mem_tail h
        exact List.mem_cons_of_mem _ (ih seg hseg c hc)

/-- C4 as stated is false: on the filesystem `fsEx`, where `/etc/passwd` is a
regular file outside the assets root, the traversal request
`/../../etc/passwd` is answered with `ServeFile` of a candidate that resolves
to `/etc/passwd` — outside `/assets` — instead of `NotFound`. -/
theorem c4_counterexample :
    serve fsEx travReq = Outcome.ServeFile travCand ∧
      resolveSegs travCand = [['e', 't', 'c'], ['p', 'a', 's', 's', 'w', 'd']] ∧
      List.isPrefixOf assetsRoot (resolveSegs travCand) = false := by
  decide

/-- C4 amended: the resolver does not neutralize `..` segments. A request
whose normalized name contains a `..` segment is served `ServeFile` of the
candidate whenever that candidate (with `..` resolved, possibly escaping the
assets root) is an existing regular file, and `NotFound` otherwise — never the
fallback, since a `..` segment puts a `.` character in the name. -/
theorem c4_amended (fs : FS) (rp : Str)
    (hdd : dotdot ∈ pathSegs (normalize rp)) :
    serve fs rp =
      if fs.exists (candidate (normalize rp)) &&
          FS.is_file fs (candidate (normalize rp)) then
        Outcome.ServeFile (candidate (normalize rp))
      else Outcome.NotFound := by
  have hdot : '.' ∈ normalize rp := by
    have h1 : dotdot ∈ splitSegs (normalize rp) := (List.mem_filter.mp hdd).1
    exact mem_of_mem_splitSegs _ _ h1 '.' (by simp [dotdot])
  unfold serve
  by_cases hc : (fs.exists (candidate (normalize rp)) &&
      FS.is_file fs (candidate (normalize rp))) = true
  · rw [if_pos hc, if_pos hc]
  · rw [if_neg hc, if_neg hc, if_neg (not_not_intro hdot)]

/-- Witness for C4 amended: the traversal request `/../../etc/passwd` on
`fsEx` hits the regular file `/etc/passwd` and is served it. -/
theorem c4_amended_witness : serve fsEx travReq = Outcome.ServeFile travCand :=
  (c4_amended fsEx travReq (by decide)).trans (by decide)

/-- The request path `//foo`. -/
def slashSlashFoo : Str := ['/', '/', 'f', 'o', 'o']

/-- C5 as stated is false: normalization strips every leading separator, so
`//foo` normalizes to `foo`, not to `/foo`. -/
theorem c5_counterexample :
    normalize slashSlashFoo = ['f', 'o', 'o'] ∧
      (['f', 'o', 'o'] : Str) ≠ ['/', 'f', 'o', 'o'] := by
  decide

/-- The first character surviving `lstrip("/")` is never `/`. -/
theorem lstripSlash_head :
    ∀ (rp : Str) (c : Char) (t : Str), lstripSlash rp = c :: t → c ≠ '/' := by
  intro rp
  induction rp with
  | nil =>
    intro c t h
    simp [lstripSlash] at h
  | cons a as ih =>
    intro c t h
    by_cases ha : a = '/'
    · apply ih c t
      unfold lstripSlash at h ⊢
      rwa [List.dropWhile_cons_of_pos (by simp [ha])] at h
    · unfold lstripSlash at h
      rw [List.dropWhile_cons_of_neg (by simp [ha])] at h
      cases h
      exact ha

/-- C5 amended: normalization strips every leading path separator (one more
leading `/` never changes the result, and the result never starts with `/`),
and a path that is all separators or empty normalizes to the literal
`index.html`. -/
theorem c5_amended (rp : Str) :
    normalize ('/' :: rp) = normalize rp ∧
      (normalize rp).head? ≠ some '/' ∧
      (lstripSlash rp = [] → normalize rp = indexHtml) := by
  refine ⟨?_, ?_, ?_⟩
  · unfold normalize lstripSlash
    rw [List.dropWhile_cons_of_pos (by decide)]
  · unfold normalize
    cases hp : lstripSlash rp with
    | nil => decide
    | cons c t =>
      simp only [reduceCtorEq, if_false, List.head?_cons, ne_eq,
        Option.some.injEq]
      exact lstripSlash_head rp c t hp
  · intro h
    unfold normalize
    rw [h]
    rfl

/-- Witness for C5 amended: at the request path `//foo`, one more leading
slash changes nothing, and the all-slash path `//` normalizes to
`index.html`. -/
theorem c5_amended_witness :
    normalize ('/' :: slashSlashFoo) = normalize slashSlashFoo ∧
      normalize ['/', '/'] = indexHtml :=
  ⟨(c5_amended slashSlashFoo).1, (c5_amended ['/', '/']).2.2 (by decide)⟩

end ServeModal
